import Mathlib

/-!
Verification development for the gitq / git-quilt suite: a shallow embedding
of the serializable continuation engine (`gitq/continuations.py`,
`git_quilt/continuations.py`) and the swap algorithm (`git_quilt/git_swap.py`,
`git_quilt/git.py`), with theorems settling the frozen claims about them.

The VCS itself is an external command surface; its state (commit store, HEAD,
index, worktree, branches, the private `continuation.json` file) is modelled
explicitly as a `Repo` record, and each adapter call from `git.py` becomes a
function on `Repo`.  Python exceptions become an explicit `Exc` sum; a
computation is a function `Repo → Except Exc α × Repo` (state survives an
exception, as it does in the real program).  Commit identifiers, tree
identifiers and refs are opaque strings; commit messages are kept as lists of
lines (mirroring `Commit.__init__`, which parses the raw log into lines).
-/

namespace Gitq

/-- Parsed author/committer identity, the `AuthorDate` named tuple of
`git_quilt/git.py` (`split_author` parses `"name <email> date"` into this
triple; the model keeps identities parsed). -/
structure AuthorDate where
  name : String
  email : String
  date : String
deriving DecidableEq, Repr

/-- Immutable view of a VCS commit, the `Commit` class of `git_quilt/git.py`:
content-addressed sha, parent shas, tree id, author/committer identities, and
the indentation-stripped message as a list of lines (the Python class stores
the joined lines with a final newline; the line list carries the same data). -/
structure CommitObj where
  sha : String
  parents : List String
  tree : String
  author : AuthorDate
  committer : AuthorDate
  message : List String
deriving DecidableEq, Repr

/-- `Commit.summary`: first ten characters of the sha, a space, and the first
message line. -/
def summary (c : CommitObj) : String :=
  c.sha.take 10 ++ " " ++ (c.message.headD "")

/-- The serializable payload of one continuation: one constructor per
registered continuation kind, with fields matching the Python instance
attributes one-to-one (the kind registry collected by `ContinuationClass`).
`deleteTempBranch`, `editBranch`, `pickCherries`, `cherryPickContinue` are
declared in `gitq/continuations.py`; `pickCherryWithReference`, `orSquash`,
`swapCheckpoint`, `keepGoing`, `keepGoingUp`, `catchStop` in
`git_quilt/git_swap.py`. -/
inductive ContData where
  | deleteTempBranch (branch : String) (previous_head : String)
  | editBranch (message : String) (head : String)
  | pickCherries (cherries : List String) (edit : Bool)
  | cherryPickContinue (ref : String)
  | pickCherryWithReference (cherry : String) (reference : String)
  | orSquash (head : String)
  | swapCheckpoint (head : String)
  | keepGoing (edit : Bool) (baselines : List String)
  | keepGoingUp (edit : Bool) (cherries : List String)
  | catchStop
deriving DecidableEq, Repr

/-- Contents of the suspended-state file `<git-dir>/continuation.json`:
owning tool, optional status string, and the continuation records,
outermost first (`Main.suspend` in `gitq/continuations.py`). -/
structure SuspFile where
  tool : String
  status : Option String
  continuations : List ContData
deriving DecidableEq, Repr

/-- The exceptions of the program.  `suspend` is the `Suspend` signal and
carries the captured continuation list (innermost first, as appended by
`Continuation.__exit__`); `stopR`/`squashR`/`fixupR` are the `Resume`
subclasses of `git_swap.py`; `abortE` is `Abort` (a plain `Exception` in the
source, not a `Resume`); `exit` is `SystemExit` from `sys.exit`. -/
inductive Exc where
  | suspend (status : Option String) (conts : List ContData)
  | stopR
  | squashR
  | fixupR
  | abortE
  | userError (msg : String)
  | gitFailed (msg : String)
  | swapFailed (msg : String)
  | mergeFound (msg : String)
  | keyError (msg : String)
  | internalError (msg : String)
  | exit (code : Nat)
deriving DecidableEq, Repr

/-- Is this the `Suspend` signal? -/
def Exc.isSuspend : Exc → Bool
  | .suspend _ _ => true
  | _ => false

/-- Is this one of the `Resume` subclasses (`Stop`, `Squash`, `Fixup`)?
`Abort` is deliberately not among them: in the source it derives from
`Exception`, not `Resume`. -/
def Exc.isResume : Exc → Bool
  | .stopR => true
  | .squashR => true
  | .fixupR => true
  | _ => false

/-- Is this `SystemExit`? -/
def Exc.isExit : Exc → Bool
  | .exit _ => true
  | _ => false

/-- Caught by the source's `except (Exception, Resume)` handlers: everything
except the `Suspend` signal and `SystemExit` (both direct `BaseException`s). -/
def Exc.catchable (e : Exc) : Bool := !e.isSuspend && !e.isExit

/-- The modelled repository state.  `commits` is the content-addressed store
(newest first; lookup by sha).  `headRef = some b` means HEAD is a symbolic
ref to branch `b` (which may not exist yet: an orphan branch); `headSha` is
the sha HEAD resolves to when detached or on an existing branch.  `contFile`
is `<git-dir>/continuation.json`; `msgFile` is `<git-dir>/COMMIT_EDITMSG` as
lines; `clean` abstracts `Git.is_clean`; `ident` is the ambient committer
identity; `fresh` feeds new commit ids. -/
structure Repo where
  commits : List CommitObj
  headRef : Option String
  headSha : String
  branches : List (String × String)
  indexTree : String
  worktree : String
  cherryPickInProgress : Bool
  contFile : Option SuspFile
  msgFile : List String
  clean : Bool
  ident : AuthorDate
  fresh : Nat
deriving DecidableEq, Repr

/-- Look a commit up in the store by sha (the `git log -n1 <sha>` read). -/
def lookupCommit (s : Repo) (sha : String) : Option CommitObj :=
  s.commits.find? (fun c => c.sha = sha)

/-- Sha a branch points to, if the branch ref exists. -/
def branchSha (s : Repo) (b : String) : Option String :=
  (s.branches.find? (fun p => p.1 = b)).map (fun p => p.2)

/-- `Git.on_orphan_branch`: HEAD is a symbolic ref to a branch whose ref does
not yet exist. -/
def onOrphanBranch (s : Repo) : Bool :=
  match s.headRef with
  | some b => (branchSha s b).isNone
  | none => false

/-- Resolve HEAD to a sha (`git rev-parse HEAD`); fails (`none`) on an orphan
branch. -/
def resolveHead (s : Repo) : Option String :=
  match s.headRef with
  | some b => branchSha s b
  | none => some s.headSha

/-- `Git.commit(ref)`: read a commit object by ref (only `"HEAD"` or a sha is
ever passed in the modelled flows). -/
def commitOf (s : Repo) (ref : String) : Except Exc CommitObj :=
  match (if ref = "HEAD" then resolveHead s else some ref) with
  | none => .error (.gitFailed "git failed")
  | some sha =>
    match lookupCommit s sha with
    | none => .error (.gitFailed "git failed")
    | some c => .ok c

/-- `Git.unique_parent`: raise `MergeFound` unless the commit has exactly one
parent, else read that parent. -/
def uniqueParentPure (s : Repo) (c : CommitObj) : Except Exc CommitObj :=
  match c.parents with
  | [p] => commitOf s p
  | _ => .error (.mergeFound (c.sha.take 10 ++ " is a merge"))

/-- `Git.unique_parent_or_root`: `none` for a root commit, otherwise the
unique parent (propagating `MergeFound` for merges). -/
def uniqueParentOrRootPure (s : Repo) (c : CommitObj) : Except Exc (Option CommitObj) :=
  match c.parents with
  | [] => .ok none
  | _ => (uniqueParentPure s c).map some

/-- `git checkout <sha>`: detach HEAD at the sha and load its tree into index
and worktree. -/
def checkoutSha (s : Repo) (sha : String) : Except Exc Repo :=
  match lookupCommit s sha with
  | none => .error (.gitFailed "git failed")
  | some c =>
    .ok { s with headRef := none, headSha := sha, indexTree := c.tree, worktree := c.tree }

/-- `git checkout [-f] <ref>` on a ref that may be a branch short name: attach
to the branch when it exists, otherwise treat the ref as a sha. -/
def checkoutRef (s : Repo) (ref : String) : Except Exc Repo :=
  match branchSha s ref with
  | some sha =>
    match lookupCommit s sha with
    | none => .error (.gitFailed "git failed")
    | some c =>
      .ok { s with headRef := some ref, headSha := sha, indexTree := c.tree, worktree := c.tree }
  | none => checkoutSha s ref

/-- `Git.detach`: `git checkout $(git rev-parse HEAD)`. -/
def detach (s : Repo) : Except Exc Repo :=
  match resolveHead s with
  | none => .error (.gitFailed "git failed")
  | some sha => checkoutSha s sha

/-- `Git.head`: symbolic ref of HEAD when on a branch, else the sha. -/
def headLoc (s : Repo) : String :=
  match s.headRef with
  | some b => "refs/heads/" ++ b
  | none => s.headSha

/-- Does the branch ref exist (`Git.branch_exists`)? -/
def branchExists (s : Repo) (b : String) : Bool := (branchSha s b).isSome

/-- `git branch -qD <b>`. -/
def deleteBranch (s : Repo) (b : String) : Repo :=
  { s with branches := s.branches.filter (fun p => p.1 ≠ b) }

/-- `git read-tree <sha>`: load the commit's tree into the index. -/
def readTree (s : Repo) (sha : String) : Except Exc Repo :=
  match lookupCommit s sha with
  | none => .error (.gitFailed "git failed")
  | some c => .ok { s with indexTree := c.tree }

/-- `git reset --hard HEAD`: index and worktree from HEAD's tree. -/
def resetHard (s : Repo) : Except Exc Repo :=
  match resolveHead s with
  | none => .error (.gitFailed "git failed")
  | some sha =>
    match lookupCommit s sha with
    | none => .error (.gitFailed "git failed")
    | some c => .ok { s with indexTree := c.tree, worktree := c.tree }

/-- The tree id of an empty index (`git read-tree --empty`). -/
def emptyTree : String := "tree-empty"

/-- `Git.delete_index_and_files`: remove every tracked file and clear the
index. -/
def deleteIndexAndFiles (s : Repo) : Repo :=
  { s with indexTree := emptyTree, worktree := emptyTree }

/-- `git checkout -q --orphan <b>`: HEAD becomes a symbolic ref to the
not-yet-existing branch; index and worktree keep their content (the source
clears them right after with `delete_index_and_files`). -/
def checkoutOrphan (s : Repo) (b : String) : Repo :=
  { s with headRef := some b }

/-- Commit id for the next created commit. -/
def freshSha (s : Repo) : String := "new-" ++ toString s.fresh

/-- Parents of a commit created now: none on an orphan branch, the branch tip
when on a branch, the detached sha otherwise. -/
def commitParents (s : Repo) : List String :=
  match s.headRef with
  | some b =>
    match branchSha s b with
    | some sha => [sha]
    | none => []
  | none => [s.headSha]

/-- Core of `git commit`: create a commit from the current index with the
given author and message, advance HEAD (and the current branch, creating it
when it was an orphan). -/
def doCommit (s : Repo) (author : AuthorDate) (message : List String) : Repo :=
  let sha := freshSha s
  let c : CommitObj :=
    { sha := sha, parents := commitParents s, tree := s.indexTree,
      author := author, committer := s.ident, message := message }
  let branches :=
    match s.headRef with
    | some b => (b, sha) :: s.branches.filter (fun p => p.1 ≠ b)
    | none => s.branches
  { s with commits := c :: s.commits, headSha := sha, branches := branches,
           fresh := s.fresh + 1 }

/-- `git commit --allow-empty --reuse-message <src>`: author and message are
taken from the source commit. -/
def commitReuse (s : Repo) (srcSha : String) : Except Exc Repo :=
  match lookupCommit s srcSha with
  | none => .error (.gitFailed "git failed")
  | some src => .ok (doCommit s src.author src.message)

/-! ## Commit-message cleanup

`git commit --edit -F <file>` runs the VCS's default message cleanup
(`--cleanup=strip`): leading and trailing blank lines are removed and runs of
consecutive blank lines collapse to one.  The VCS is an external command
surface for this program; its cleanup behavior is pinned by the repository's
own tests (test_swap.py asserts the squashed message is `"b\n\nB\n"`), and is
modelled here on message line lists. -/

/-- Collapse each run of consecutive empty lines to a single empty line. -/
def collapseEmpty : List String → List String
  | [] => []
  | [x] => [x]
  | x :: y :: rest =>
    if x = "" && y = "" then collapseEmpty (y :: rest)
    else x :: collapseEmpty (y :: rest)

/-- Remove trailing empty lines. -/
def dropTrailingEmpty (ls : List String) : List String :=
  (ls.reverse.dropWhile (fun l => l = "")).reverse

/-- The VCS's `--cleanup=strip` on a message given as lines. -/
def cleanupStrip (ls : List String) : List String :=
  dropTrailingEmpty ((collapseEmpty ls).dropWhile (fun l => l = ""))

/-- No two adjacent lines are both empty. -/
def noTwoEmpty : List String → Bool
  | [] => true
  | [_] => true
  | x :: y :: rest => !(x = "" && y = "") && noTwoEmpty (y :: rest)

/-- A message in the form the VCS itself stores after cleanup: nonempty, no
leading or trailing blank line, no run of blank lines. -/
def cleanMsg (ls : List String) : Bool :=
  !ls.isEmpty && !(ls.head? == some "") && !(ls.getLast? == some "") && noTwoEmpty ls

/-- `git commit --allow-empty --edit -F <git-dir>/COMMIT_EDITMSG` with the
`GIT_AUTHOR_NAME`/`GIT_AUTHOR_EMAIL`/`GIT_AUTHOR_DATE` environment variables
set to `envAuthor`: the created commit's author is the environment identity
and its message is the cleaned-up message file. -/
def commitEditMsg (s : Repo) (envAuthor : AuthorDate) : Repo :=
  doCommit s envAuthor (cleanupStrip s.msgFile)

/-! ## Continuation engine (`gitq/continuations.py`) -/

/-- A computation over the repository: result or exception, plus the state
reached (Python state survives a raised exception). -/
abbrev Run (α : Type) := Repo → Except Exc α × Repo

/-- `Continuation.__exit__`: if the in-flight exception is `Suspend`, append
`self` to its continuation list and propagate without running the scope's
tail (`manager.__exit__`); otherwise run the tail, and if the tail itself
raises `Suspend`, append `self` to that and propagate.  `self` is the
continuation's serializable data at exit time; `tail` is the impl-specific
part of `manager.__exit__` (the code around the generator's `yield`). -/
def runScope (self : ContData)
    (tail : Except Exc Unit → Run Unit)
    (body : Run Unit) : Run Unit := fun s =>
  match body s with
  | (.error (.suspend st cs), s1) => (.error (.suspend st (cs ++ [self])), s1)
  | (r, s1) =>
    match tail r s1 with
    | (.error (.suspend st cs), s2) => (.error (.suspend st (cs ++ [self])), s2)
    | r2 => r2

/-- A nest of continuation scopes, outermost first, around a body; each
scope's tail is supplied by `tails`.  This is the `with`-statement nesting the
tools build (and `Main.reanimate` rebuilds). -/
def nestScopes (tails : ContData → Except Exc Unit → Run Unit) :
    List ContData → Run Unit → Run Unit
  | [], body => body
  | c :: rest, body => runScope c (tails c) (nestScopes tails rest body)

/-- `Main.suspend`: write the suspended-state file — tool name, optional
status, and the captured continuations reversed (the capture order is
innermost first, the file is outermost first) — then `sys.exit(2)`. -/
def mainSuspend (tool : String) (status : Option String) (conts : List ContData) :
    Run Unit := fun s =>
  (.error (.exit 2),
   { s with contFile := some ⟨tool, status, conts.reverse⟩ })

/-- `Main.setup`: refuse (`UserError`) when the worktree is dirty or when the
suspended-state file already exists; otherwise run the tool's work, turning
`Suspend` into `Main.suspend` and a leaking `Resume` into an internal
error. -/
def mainSetup (tool : String) (body : Run Unit) : Run Unit := fun s =>
  if s.clean = false then (.error (.userError "Error: repo not clean"), s)
  else
    match s.contFile with
    | some f => (.error (.userError (f.tool ++ " operation is already in progress.")), s)
    | none =>
      match body s with
      | (.error (.suspend st cs), s1) => mainSuspend tool st cs s1
      | (.error e, s1) =>
        if e.isResume then (.error (.internalError "Internal error.  Uncaught Resume"), s1)
        else (.error e, s1)
      | (.ok a, s1) => (.ok a, s1)

/-- The tail of `Main.resume` after the file is deleted: run the rehydrated
stack; on `Suspend` re-serialize via `Main.suspend`, on a leaking `Resume`
fail internally, otherwise `sys.exit(0)`. -/
def resumeTail (tool : String) (r : Except Exc Unit × Repo) : Except Exc Unit × Repo :=
  match r with
  | (.error (.suspend st cs), s1) => mainSuspend tool st cs s1
  | (.error e, s1) =>
    if e.isResume then (.error (.internalError "Internal error.  Uncaught Resume"), s1)
    else (.error e, s1)
  | (.ok _, s1) => (.error (.exit 0), s1)

/-- `Main.resume`: require the suspended-state file, require that it is owned
by the invoking tool, delete it, and only then run the rehydrated stack
(`reanimateF` stands for `self.reanimate(j["continuations"], throw=throw)`,
whose behavior depends on the registered kinds). -/
def mainResume (tool : String) (reanimateF : List ContData → Run Unit) : Run Unit := fun s =>
  match s.contFile with
  | none => (.error (.userError ("Error: no " ++ tool ++ " operation is in progress")), s)
  | some f =>
    if f.tool ≠ tool then
      (.error (.userError ("A " ++ f.tool ++ " operation is currently in progress")), s)
    else
      resumeTail tool (reanimateF f.continuations { s with contFile := none })

/-! ## Cherry-picking (`gitq/continuations.py`) -/

/-- Outcome of the raw `git cherry-pick --allow-empty <ref>` command. -/
inductive CPRes where
  | ok
  | fail
deriving DecidableEq, Repr

/-- The raw cherry-pick command is the VCS's merge machinery; its outcome and
state effect are an oracle parameter (on conflict the real command leaves
`CHERRY_PICK_HEAD` behind, reflected in the result state's
`cherryPickInProgress`). -/
abbrev CPOracle := String → Repo → CPRes × Repo

/-- `Git.cherry_pick_abort`: nothing unless a cherry-pick is in progress;
on an orphan branch remove the marker and clear files and index by hand,
otherwise `git cherry-pick --abort`. -/
def cherryPickAbort (s : Repo) : Repo :=
  if s.cherryPickInProgress then
    if onOrphanBranch s then
      { deleteIndexAndFiles s with cherryPickInProgress := false }
    else
      { s with cherryPickInProgress := false }
  else s

/-- `cherry_pick(ref, edit=...)`: run the raw command; on failure, if `edit`
was requested and a cherry-pick is in progress, enter a
`CherryPickContinue(ref)` scope and raise `Suspend(status="cherry-picking
<ref>")` inside it (so that scope is the first capture); otherwise abort the
cherry-pick and re-raise `GitFailed`. -/
def cherryPickFn (cp : CPOracle) (ref : String) (edit : Bool) : Run Unit := fun s =>
  match cp ref s with
  | (.ok, s1) => (.ok (), s1)
  | (.fail, s1) =>
    if edit && s1.cherryPickInProgress then
      (.error (.suspend (some ("cherry-picking " ++ ref)) [.cherryPickContinue ref]), s1)
    else
      (.error (.gitFailed "git failed"), cherryPickAbort s1)

/-- The post-yield loop of `PickCherries.impl`: `while self.cherries:` pop the
first cherry off the attribute list, then pick it.  Returns the outcome, the
state, and the value of `self.cherries` when the loop stopped (the
not-yet-picked suffix — the in-progress cherry is already popped). -/
def pickCherriesLoop (cp : CPOracle) (edit : Bool) :
    List String → Repo → (Except Exc Unit × Repo) × List String
  | [], s => ((.ok (), s), [])
  | c :: rest, s =>
    match cherryPickFn cp c edit s with
    | (.ok _, s1) => pickCherriesLoop cp edit rest s1
    | (.error e, s1) => ((.error e, s1), rest)

/-- The `PickCherries` continuation scope: yield to the body, then run the
pick loop; a `Suspend` escaping either part captures the instance with its
current (mutated) `cherries` attribute, per `Continuation.__exit__`. -/
def runPickCherries (cp : CPOracle) (cherries : List String) (edit : Bool)
    (body : Run Unit) : Run Unit := fun s =>
  match body s with
  | (.error (.suspend st cs), s1) =>
    (.error (.suspend st (cs ++ [.pickCherries cherries edit])), s1)
  | (.error e, s1) => (.error e, s1)
  | (.ok _, s1) =>
    match pickCherriesLoop cp edit cherries s1 with
    | ((.error (.suspend st cs), s2), remaining) =>
      (.error (.suspend st (cs ++ [.pickCherries remaining edit])), s2)
    | ((r, s2), _) => (r, s2)

/-! ## Temp branches and baselines (`gitq/continuations.py`) -/

/-- The `finally` tail of `DeleteTempBranch.impl`: if still on the orphan
branch force-check-out the previous head, otherwise detach; then force-delete
the branch if its ref exists.  An exception out of the `finally` replaces the
in-flight outcome. -/
def dtbTail (branch previous_head : String) (r : Except Exc Unit) : Run Unit := fun s =>
  match (if onOrphanBranch s then checkoutRef s previous_head else detach s) with
  | .error e => (.error e, s)
  | .ok s1 =>
    let s2 := if branchExists s1 branch then deleteBranch s1 branch else s1
    (r, s2)

/-- `TempBranch`'s probe for the lowest unused `temp-N` name; the number of
probes is bounded by the branch count plus one (the source iterates
`itertools.count()`; pigeonhole makes the fallback value unreachable). -/
def freshTempName (s : Repo) : String :=
  let names := s.branches.map (fun p => p.1)
  let n := ((List.range (names.length + 1)).find?
    (fun n => !names.contains ("temp-" ++ toString n))).getD (names.length + 1)
  "temp-" ++ toString n

/-- The `TempBranch` context manager: record the previous head, and inside a
`DeleteTempBranch` scope create the orphan branch, clear index and files, and
run the body. -/
def tempBranchScope (body : Run Unit) : Run Unit := fun s =>
  let branch := freshTempName s
  let prev := headLoc s
  runScope (.deleteTempBranch branch prev) (dtbTail branch prev)
    (fun s0 => body (deleteIndexAndFiles (checkoutOrphan s0 branch))) s

/-- The `CheckoutBaseline` context manager: check out the given sha, or, when
there is none (the parent was a root), run the body on an orphan temp
branch. -/
def checkoutBaseline (shaOpt : Option String) (body : Run Unit) : Run Unit := fun s =>
  match shaOpt with
  | none => tempBranchScope body s
  | some sha =>
    match checkoutSha s sha with
    | .error e => (.error e, s)
    | .ok s1 => body s1

/-! ## The swap algorithm (`git_quilt/git_swap.py`) -/

/-- The success tail of `PickCherryWithReference.impl`: force the index to the
reference commit's tree (`git read-tree reference`), recommit with the
cherry's metadata (`git commit --allow-empty --reuse-message cherry`), and
hard-reset the worktree.  On an exception the generator has no handler, so
nothing runs and the exception propagates. -/
def pcwrTail (cherry reference : String) (r : Except Exc Unit) : Run Unit := fun s =>
  match r with
  | .error e => (.error e, s)
  | .ok _ =>
    match readTree s reference with
    | .error e => (.error e, s)
    | .ok s1 =>
      match commitReuse s1 cherry with
      | .error e => (.error e, s1)
      | .ok s2 =>
        match resetHard s2 with
        | .error e => (.error e, s2)
        | .ok s3 => (.ok (), s3)

/-- The tail of `SwapCheckpoint.impl`: on any `Exception` or `Resume` (not
`Suspend`, which never reaches the generator) force-check-out the recorded
head and re-raise. -/
def swapCheckpointTail (head : String) (r : Except Exc Unit) : Run Unit := fun s =>
  match r with
  | .ok _ => (.ok (), s)
  | .error e =>
    if e.catchable then
      match checkoutRef s head with
      | .ok s1 => (.error e, s1)
      | .error e2 => (.error e2, s)
    else (.error e, s)

/-- The status text `swap` installs on a propagating `Suspend` (the dedented
f-string naming the two commits being swapped). -/
def swapStatus (one two : CommitObj) : String :=
  "\nAttempting to swap:\n    " ++ summary one ++ "\n    " ++ summary two ++ "\n"

/-- The body of the `PickCherryWithReference` block in `swap`:
`cherry_pick(one.sha, edit=edit)` with `GitFailed` converted to `SwapFailed`
and a propagating `Suspend` given the swap status text. -/
def swapInner (cp : CPOracle) (edit : Bool) (one two : CommitObj) : Run Unit := fun s =>
  match cherryPickFn cp one.sha edit s with
  | (.error (.gitFailed m), s1) => (.error (.swapFailed ("Swap failed: " ++ m)), s1)
  | (.error (.suspend _ cs), s1) => (.error (.suspend (some (swapStatus one two)) cs), s1)
  | r => r

/-- The `try` block at the top of `swap`: resolve HEAD's unique parent and
the parent-or-root above it, converting `MergeFound` to `SwapFailed`. -/
def swapParents (s : Repo) (one : CommitObj) :
    Except Exc (CommitObj × Option CommitObj) :=
  match uniqueParentPure s one with
  | .error (.mergeFound m) => .error (.swapFailed ("Swap failed: " ++ m))
  | .error e => .error e
  | .ok two =>
    match uniqueParentOrRootPure s two with
    | .error (.mergeFound m) => .error (.swapFailed ("Swap failed: " ++ m))
    | .error e => .error e
    | .ok three => .ok (two, three)

/-- `swap`: read HEAD (`one`), its unique parent (`two`) and grandparent or
root (`three`); refuse to cross a baseline; then, inside
`SwapCheckpoint(one.sha)`, `CheckoutBaseline(three?.sha)` and
`PickCherryWithReference(cherry=two.sha, reference=one.sha)`, cherry-pick
`one`. -/
def swap (cp : CPOracle) (edit : Bool) (baselines : List String) : Run Unit := fun s =>
  match commitOf s "HEAD" with
  | .error e => (.error e, s)
  | .ok one =>
    match swapParents s one with
    | .error e => (.error e, s)
    | .ok (two, three) =>
      if baselines.contains two.sha then (.error (.swapFailed "hit baseline"), s)
      else
        runScope (.swapCheckpoint one.sha) (swapCheckpointTail one.sha)
          (checkoutBaseline (three.map (fun c => c.sha))
            (runScope (.pickCherryWithReference two.sha one.sha)
              (pcwrTail two.sha one.sha)
              (swapInner cp edit one two))) s

/-! ## OrSquash (`git_quilt/git_swap.py`) -/

/-- The shared completion of the `Squash` and `Fixup` handlers of
`OrSquash.impl`: inside `CheckoutBaseline(C?.sha)` read `A`'s tree, then
commit — for `Squash` with `GIT_AUTHOR_*` set to `B`'s author
(`split_author(B.author)`) and `COMMIT_EDITMSG` holding `B`'s message, a
blank separator, and `A`'s message (two blank lines in the raw file, since
`B.message` already ends in a newline; the VCS's cleanup collapses them); for
`Fixup` with `--reuse-message B` — and hard-reset the worktree. -/
def orSquashFinish (A B : CommitObj) (C : Option CommitObj) (squash : Bool) : Run Unit :=
  checkoutBaseline (C.map (fun c => c.sha)) (fun s1 =>
    match readTree s1 A.sha with
    | .error e => (.error e, s1)
    | .ok s2 =>
      if squash then
        let s3 := { s2 with msgFile := B.message ++ "" :: "" :: A.message }
        match resetHard (commitEditMsg s3 B.author) with
        | .error e => (.error e, commitEditMsg s3 B.author)
        | .ok s4 => (.ok (), s4)
      else
        match commitReuse s2 B.sha with
        | .error e => (.error e, s2)
        | .ok s3 =>
          match resetHard s3 with
          | .error e => (.error e, s3)
          | .ok s4 => (.ok (), s4))

/-- One `Squash`/`Fixup` handler of `OrSquash.impl`: `A = head`,
`B = unique_parent(A)`, `C = unique_parent_or_root(B)`, then the completion,
then `raise Stop`. -/
def orSquashHandle (squash : Bool) (head : String) : Run Unit := fun s =>
  match commitOf s head with
  | .error e => (.error e, s)
  | .ok A =>
    match uniqueParentPure s A with
    | .error e => (.error e, s)
    | .ok B =>
      match uniqueParentOrRootPure s B with
      | .error e => (.error e, s)
      | .ok C =>
        match orSquashFinish A B C squash s with
        | (.ok _, s1) => (.error .stopR, s1)
        | r => r

/-- The tail of `OrSquash.impl`: consume `Squash` and `Fixup` (replacing the
swap with a squash or fixup and raising `Stop`), pass `Stop` through for
`KeepGoing`, and let everything else — including `Abort`, which is not a
`Resume` in this codebase — propagate (the source's `except Resume:
NotImplementedError` arm matches no other modelled variant). -/
def orSquashTail (head : String) (r : Except Exc Unit) : Run Unit := fun s =>
  match r with
  | .ok _ => (.ok (), s)
  | .error .fixupR => orSquashHandle false head s
  | .error .squashR => orSquashHandle true head s
  | .error e => (.error e, s)

/-! ## collect_cherries (`git_quilt/git_swap.py`) -/

/-- The `while True` walk of `collect_cherries`, with explicit fuel: stop when
the target sha is reached, otherwise record the sha and step to the unique
parent, surfacing `MergeFound` as `UserError`. -/
def collectCherriesLoop (s : Repo) (target : String) :
    Nat → CommitObj → List String → Except Exc (List String)
  | 0, _, _ => .error (.internalError "out of fuel")
  | fuel + 1, head, acc =>
    if head.sha = target then .ok acc.reverse
    else
      match uniqueParentPure s head with
      | .error (.mergeFound m) => .error (.userError ("Error: " ++ m))
      | .error e => .error e
      | .ok p => collectCherriesLoop s target fuel p (head.sha :: acc)

/-- `collect_cherries(commit)`: empty for `None`, else walk from HEAD. -/
def collectCherries (s : Repo) (commit : Option CommitObj) (fuel : Nat) :
    Except Exc (List String) :=
  match commit with
  | none => .ok []
  | some c =>
    match commitOf s "HEAD" with
    | .error e => .error e
    | .ok head => collectCherriesLoop s c.sha fuel head []

/-- A parent chain from a commit down to a root of the store that never
passes through the target sha: the shape of a `collect_cherries` walk that
misses its target.  (Parent ids along the chain are real shas, in particular
never the literal ref name `"HEAD"` that `commitOf` resolves specially.) -/
inductive RootWalk (s : Repo) (target : String) : CommitObj → Nat → Prop
  | root (c : CommitObj) : c.sha ≠ target → c.parents = [] → RootWalk s target c 0
  | step (c p : CommitObj) (n : Nat) : c.sha ≠ target → c.parents = [p.sha] →
      p.sha ≠ "HEAD" → lookupCommit s p.sha = some p →
      RootWalk s target p n → RootWalk s target c (n + 1)

/-! ## Serialization of continuation records (`to_json_dict` / `Main.reanimate`) -/

/-- The JSON values that occur as continuation attributes: strings, booleans
and arrays of strings. -/
inductive JVal where
  | jstr (s : String)
  | jbool (b : Bool)
  | jlist (l : List String)
deriving DecidableEq, Repr

/-- `Continuation.to_json_dict`, per kind: the instance's attributes (minus
the VCS handle and context manager) plus a `kind` entry holding the class
name. -/
def serializeCont : ContData → List (String × JVal)
  | .deleteTempBranch b p =>
    [("kind", .jstr "DeleteTempBranch"), ("branch", .jstr b), ("previous_head", .jstr p)]
  | .editBranch m h =>
    [("kind", .jstr "EditBranch"), ("message", .jstr m), ("head", .jstr h)]
  | .pickCherries cs e =>
    [("kind", .jstr "PickCherries"), ("cherries", .jlist cs), ("edit", .jbool e)]
  | .cherryPickContinue r =>
    [("kind", .jstr "CherryPickContinue"), ("ref", .jstr r)]
  | .pickCherryWithReference c r =>
    [("kind", .jstr "PickCherryWithReference"), ("cherry", .jstr c), ("reference", .jstr r)]
  | .orSquash h =>
    [("kind", .jstr "OrSquash"), ("head", .jstr h)]
  | .swapCheckpoint h =>
    [("kind", .jstr "SwapCheckpoint"), ("head", .jstr h)]
  | .keepGoing e bl =>
    [("kind", .jstr "KeepGoing"), ("edit", .jbool e), ("baselines", .jlist bl)]
  | .keepGoingUp e cs =>
    [("kind", .jstr "KeepGoingUp"), ("edit", .jbool e), ("cherries", .jlist cs)]
  | .catchStop =>
    [("kind", .jstr "CatchStop")]

/-- String-valued attribute lookup in a record. -/
def getStr (d : List (String × JVal)) (k : String) : Option String :=
  match (d.find? (fun p => p.1 = k)).map (fun p => p.2) with
  | some (JVal.jstr v) => some v
  | _ => none

/-- Bool-valued attribute lookup in a record. -/
def getBool (d : List (String × JVal)) (k : String) : Option Bool :=
  match (d.find? (fun p => p.1 = k)).map (fun p => p.2) with
  | some (JVal.jbool v) => some v
  | _ => none

/-- String-array attribute lookup in a record. -/
def getList (d : List (String × JVal)) (k : String) : Option (List String) :=
  match (d.find? (fun p => p.1 = k)).map (fun p => p.2) with
  | some (JVal.jlist v) => some v
  | _ => none

/-- `Main.reanimate`'s per-record reconstruction: look the `kind` up in the
registry and pass the remaining attributes to the kind's constructor as
keywords; `none` for an unknown kind or an attribute set the constructor
rejects. -/
def deserializeCont (d : List (String × JVal)) : Option ContData :=
  match getStr d "kind" with
  | some "DeleteTempBranch" =>
    match getStr d "branch", getStr d "previous_head" with
    | some b, some p => some (.deleteTempBranch b p)
    | _, _ => none
  | some "EditBranch" =>
    match getStr d "message", getStr d "head" with
    | some m, some h => some (.editBranch m h)
    | _, _ => none
  | some "PickCherries" =>
    match getList d "cherries", getBool d "edit" with
    | some cs, some e => some (.pickCherries cs e)
    | _, _ => none
  | some "CherryPickContinue" =>
    match getStr d "ref" with
    | some r => some (.cherryPickContinue r)
    | none => none
  | some "PickCherryWithReference" =>
    match getStr d "cherry", getStr d "reference" with
    | some c, some r => some (.pickCherryWithReference c r)
    | _, _ => none
  | some "OrSquash" =>
    match getStr d "head" with
    | some h => some (.orSquash h)
    | none => none
  | some "SwapCheckpoint" =>
    match getStr d "head" with
    | some h => some (.swapCheckpoint h)
    | none => none
  | some "KeepGoing" =>
    match getBool d "edit", getList d "baselines" with
    | some e, some bl => some (.keepGoing e bl)
    | _, _ => none
  | some "KeepGoingUp" =>
    match getBool d "edit", getList d "cherries" with
    | some e, some cs => some (.keepGoingUp e cs)
    | _, _ => none
  | some "CatchStop" => some .catchStop
  | _ => none

/-! ## The mutating `to_json_dict` (claim about `self.__dict__` aliasing) -/

/-- A value in a Python instance dictionary: a JSON-able attribute, the VCS
handle, or the live context manager. -/
inductive PyVal where
  | attr (v : JVal)
  | gitHandle
  | managerObj
deriving DecidableEq, Repr

/-- Python `d[k] = v`. -/
def dictSet (d : List (String × PyVal)) (k : String) (v : PyVal) : List (String × PyVal) :=
  (k, v) :: d.filter (fun p => p.1 ≠ k)

/-- Python `d[k]`. -/
def dictGet (d : List (String × PyVal)) (k : String) : Option PyVal :=
  (d.find? (fun p => p.1 = k)).map (fun p => p.2)

/-- Python `del d[k]`: `KeyError` when absent. -/
def dictDel (d : List (String × PyVal)) (k : String) :
    Except Exc (List (String × PyVal)) :=
  if (dictGet d k).isSome then .ok (d.filter (fun p => p.1 ≠ k))
  else .error (.keyError k)

/-- `Continuation.to_json_dict` as written: `j = self.__dict__` (an alias,
not a copy), set `j["kind"]`, delete `j["git"]` and `j["manager"]`, return
`j`.  The second component is the instance's `__dict__` afterwards; on a
`KeyError` the mutations already made stick. -/
def to_json_dict (kindName : String) (inst : List (String × PyVal)) :
    Except Exc (List (String × PyVal)) × List (String × PyVal) :=
  let j0 := dictSet inst "kind" (.attr (.jstr kindName))
  match dictDel j0 "git" with
  | .error e => (.error e, j0)
  | .ok j1 =>
    match dictDel j1 "manager" with
    | .error e => (.error e, j1)
    | .ok j2 => (.ok j2, j2)

/-! ## Derived state readers and concrete fixtures -/

/-- The commit HEAD currently denotes, when it resolves. -/
def headCommit (s : Repo) : Option CommitObj :=
  match resolveHead s with
  | none => none
  | some sha => lookupCommit s sha

/-- A concrete author identity for witnesses. -/
def authA : AuthorDate := ⟨"Alice", "alice", "1700000000 +0000"⟩

/-- A second concrete author identity for witnesses. -/
def authB : AuthorDate := ⟨"Bob", "bob", "1700000001 +0000"⟩

/-- Witness fixture: a root commit. -/
def cRoot : CommitObj := ⟨"shaA", [], "treeA", authA, authA, ["base"]⟩

/-- Witness fixture: the middle commit (`two`). -/
def cMid : CommitObj := ⟨"shaB", ["shaA"], "treeB", authB, authA, ["two"]⟩

/-- Witness fixture: the HEAD commit (`one`). -/
def cTop : CommitObj := ⟨"shaC", ["shaB"], "treeC", authA, authA, ["one"]⟩

/-- Witness fixture: a clean detached-HEAD repository with the three-commit
chain `shaA ← shaB ← shaC`. -/
def repo0 : Repo :=
  { commits := [cTop, cMid, cRoot], headRef := none, headSha := "shaC",
    branches := [], indexTree := "treeC", worktree := "treeC",
    cherryPickInProgress := false, contFile := none, msgFile := [],
    clean := true, ident := authA, fresh := 0 }

/-- Witness oracle: every raw cherry-pick succeeds and changes nothing. -/
def cpOk : CPOracle := fun _ s => (CPRes.ok, s)

/-- Witness oracle: the raw cherry-pick conflicts (leaving `CHERRY_PICK_HEAD`)
exactly on the given ref. -/
def cpConflictOn (bad : String) : CPOracle := fun ref s =>
  if ref = bad then (CPRes.fail, { s with cherryPickInProgress := true })
  else (CPRes.ok, s)

/-- Witness fixture: a suspended-state file owned by `git-swap`. -/
def suspSwap : SuspFile := ⟨"git-swap", none, []⟩

/-- Witness fixture: `repo0` with an operation already in progress. -/
def repoBusy : Repo := { repo0 with contFile := some suspSwap }

/-- Witness fixture: `repo0` checked out at the root commit. -/
def repoAtRoot : Repo :=
  { repo0 with headSha := "shaA", indexTree := "treeA", worktree := "treeA" }

/-! # Theorems -/

/-! ## Dictionary lemmas for the `to_json_dict` model -/

theorem dictGet_cons (a : String × PyVal) (d : List (String × PyVal)) (k : String) :
    dictGet (a :: d) k = if a.1 = k then some a.2 else dictGet d k := by
  by_cases h : a.1 = k <;> simp [dictGet, List.find?_cons, h]

theorem dictGet_filter (d : List (String × PyVal)) (k k2 : String) :
    dictGet (d.filter (fun p => p.1 ≠ k)) k2 =
      if k2 = k then none else dictGet d k2 := by
  induction d with
  | nil => simp [dictGet]
  | cons a d ih =>
    by_cases h1 : a.1 = k
    · rw [List.filter_cons_of_neg (by simp [h1]), ih, dictGet_cons]
      by_cases h2 : k2 = k
      · simp [h2]
      · have ha : ¬ (a.1 = k2) := by rw [h1]; exact fun hh => h2 hh.symm
        rw [if_neg h2, if_neg h2, if_neg ha]
    · rw [List.filter_cons_of_pos (by simp [h1]), dictGet_cons, dictGet_cons, ih]
      by_cases h2 : k2 = k
      · have ha : ¬ (a.1 = k2) := by rw [h2]; exact h1
        rw [if_neg ha, if_pos h2, if_pos h2]
      · simp only [if_neg h2]

theorem dictGet_set (d : List (String × PyVal)) (k : String) (v : PyVal) (k2 : String) :
    dictGet (dictSet d k v) k2 = if k2 = k then some v else dictGet d k2 := by
  rw [dictSet, dictGet_cons]
  by_cases h : k2 = k
  · rw [if_pos h.symm, if_pos h]
  · have hk : ¬ ((k, v).1 = k2) := fun hh => h hh.symm
    rw [if_neg hk, if_neg h, dictGet_filter, if_neg h]

theorem to_json_dict_ok (kindName : String) (inst j1 j2 : List (String × PyVal))
    (h1 : dictDel (dictSet inst "kind" (.attr (.jstr kindName))) "git" = .ok j1)
    (h2 : dictDel j1 "manager" = .ok j2) :
    to_json_dict kindName inst = (.ok j2, j2) := by
  simp only [to_json_dict, h1, h2]

theorem to_json_dict_err (kindName : String) (inst : List (String × PyVal)) (e : Exc)
    (h1 : dictDel (dictSet inst "kind" (.attr (.jstr kindName))) "git" = .error e) :
    to_json_dict kindName inst =
      (.error e, dictSet inst "kind" (.attr (.jstr kindName))) := by
  simp only [to_json_dict, h1]

/-- C8: `Continuation.to_json_dict` aliases `self.__dict__`: the returned
record is the instance's own dictionary, now holding a `kind` entry and no
longer the `git` handle or `manager` entries, so serialization is destructive
and a second `to_json_dict` on the same instance raises `KeyError` on the
already-deleted `git` entry. -/
theorem c8_to_json_dict_destructive (kindName : String) (inst : List (String × PyVal))
    (hg : (dictGet inst "git").isSome = true)
    (hm : (dictGet inst "manager").isSome = true) :
    ∃ d, to_json_dict kindName inst = (.ok d, d) ∧
      dictGet d "git" = none ∧
      dictGet d "manager" = none ∧
      dictGet d "kind" = some (.attr (.jstr kindName)) ∧
      (to_json_dict kindName d).1 = .error (.keyError "git") := by
  have g0 : dictGet (dictSet inst "kind" (.attr (.jstr kindName))) "git" =
      dictGet inst "git" := by rw [dictGet_set]; simp
  have m0 : dictGet (dictSet inst "kind" (.attr (.jstr kindName))) "manager" =
      dictGet inst "manager" := by rw [dictGet_set]; simp
  have k0 : dictGet (dictSet inst "kind" (.attr (.jstr kindName))) "kind" =
      some (.attr (.jstr kindName)) := by rw [dictGet_set]; simp
  refine ⟨((dictSet inst "kind" (.attr (.jstr kindName))).filter
      (fun p => p.1 ≠ "git")).filter (fun p => p.1 ≠ "manager"),
    ?_, ?_, ?_, ?_, ?_⟩
  · have hdel1 : dictDel (dictSet inst "kind" (.attr (.jstr kindName))) "git" =
        .ok ((dictSet inst "kind" (.attr (.jstr kindName))).filter
          (fun p => p.1 ≠ "git")) := by
      rw [dictDel, g0]; simp [hg]
    have hm1 : dictGet ((dictSet inst "kind" (.attr (.jstr kindName))).filter
        (fun p => p.1 ≠ "git")) "manager" = dictGet inst "manager" := by
      rw [dictGet_filter]; simp [m0]
    have hdel2 : dictDel ((dictSet inst "kind" (.attr (.jstr kindName))).filter
        (fun p => p.1 ≠ "git")) "manager" =
        .ok (((dictSet inst "kind" (.attr (.jstr kindName))).filter
          (fun p => p.1 ≠ "git")).filter (fun p => p.1 ≠ "manager")) := by
      rw [dictDel, hm1]; simp [hm]
    exact to_json_dict_ok kindName inst _ _ hdel1 hdel2
  · rw [dictGet_filter, dictGet_filter]; simp
  · rw [dictGet_filter]; simp
  · rw [dictGet_filter, dictGet_filter]; simp [k0]
  · have hG : dictGet (dictSet (((dictSet inst "kind" (.attr (.jstr kindName))).filter
        (fun p => p.1 ≠ "git")).filter (fun p => p.1 ≠ "manager"))
        "kind" (.attr (.jstr kindName))) "git" = none := by
      rw [dictGet_set]
      rw [if_neg (by decide : ¬ ("git" = "kind"))]
      rw [dictGet_filter, dictGet_filter]; simp
    have hdel : dictDel (dictSet (((dictSet inst "kind" (.attr (.jstr kindName))).filter
        (fun p => p.1 ≠ "git")).filter (fun p => p.1 ≠ "manager"))
        "kind" (.attr (.jstr kindName))) "git" = .error (.keyError "git") := by
      rw [dictDel, hG]; simp
    rw [to_json_dict_err kindName _ _ hdel]

/-- Closed witness for `c8_to_json_dict_destructive` on a concrete
`CherryPickContinue`-shaped instance dictionary. -/
theorem c8_witness :
    ∃ d, to_json_dict "CherryPickContinue"
        [("git", PyVal.gitHandle), ("manager", PyVal.managerObj),
         ("ref", PyVal.attr (.jstr "shaB"))] = (.ok d, d) ∧
      dictGet d "git" = none ∧
      dictGet d "manager" = none ∧
      dictGet d "kind" = some (.attr (.jstr "CherryPickContinue")) ∧
      (to_json_dict "CherryPickContinue" d).1 = .error (.keyError "git") :=
  c8_to_json_dict_destructive "CherryPickContinue"
    [("git", PyVal.gitHandle), ("manager", PyVal.managerObj),
     ("ref", PyVal.attr (.jstr "shaB"))] (by decide) (by decide)

/-- C4: for every registered continuation kind and fully specified attribute
set, serializing the instance to its kind+attributes record and
reconstructing it through the kind registry yields the same instance:
`deserialize (serialize k) = k`. -/
theorem c4_serialize_roundtrip (k : ContData) :
    deserializeCont (serializeCont k) = some k := by
  cases k <;> rfl

/-! ## The suspended-state file as the in-progress mutex (C2, C9) -/

/-- C2: the suspended-state file marks an operation in progress: a new
top-level operation (`Main.setup` on a clean repo) raises `UserError` and
leaves the state untouched when the file exists; the file is written by the
suspend path, which then exits with code 2 and stores the continuations
outermost first; and the resume driver, once ownership is validated, runs the
rehydrated stack on a state whose file has already been deleted. -/
theorem c2_contfile_mutex (tool : String) :
    (∀ (body : Run Unit) (s : Repo) (f : SuspFile), s.clean = true → s.contFile = some f →
      mainSetup tool body s =
        (.error (.userError (f.tool ++ " operation is already in progress.")), s)) ∧
    (∀ (status : Option String) (conts : List ContData) (s : Repo),
      mainSuspend tool status conts s =
        (.error (.exit 2), { s with contFile := some ⟨tool, status, conts.reverse⟩ })) ∧
    (∀ (g : List ContData → Run Unit) (s : Repo) (f : SuspFile),
      s.contFile = some f → f.tool = tool →
      mainResume tool g s = resumeTail tool (g f.continuations { s with contFile := none })) := by
  refine ⟨?_, ?_, ?_⟩
  · intro body s f hclean hfile
    unfold mainSetup
    rw [hclean, hfile]
    simp
  · intro status conts s
    rfl
  · intro g s f hfile htool
    unfold mainResume
    rw [hfile]
    simp [htool]

/-- Closed witness for `c2_contfile_mutex` at concrete states: setup refuses
on `repoBusy`, suspend on `repo0` writes the file and exits 2, and resume on
`repoBusy` hands the stack a file-free state. -/
theorem c2_witness :
    mainSetup "git-swap" (fun s => (.ok (), s)) repoBusy =
      (.error (.userError ("git-swap" ++ " operation is already in progress.")), repoBusy) ∧
    mainSuspend "git-swap" none [ContData.catchStop] repo0 =
      (.error (.exit 2),
       { repo0 with contFile := some ⟨"git-swap", none, [ContData.catchStop].reverse⟩ }) ∧
    mainResume "git-swap" (fun _ s => (.ok (), s)) repoBusy =
      resumeTail "git-swap"
        ((fun (_ : List ContData) (s : Repo) => (Except.ok (), s)) suspSwap.continuations
          { repoBusy with contFile := none }) :=
  ⟨(c2_contfile_mutex "git-swap").1 (fun s => (.ok (), s)) repoBusy suspSwap rfl rfl,
   (c2_contfile_mutex "git-swap").2.1 none [ContData.catchStop] repo0,
   (c2_contfile_mutex "git-swap").2.2 (fun _ s => (.ok (), s)) repoBusy suspSwap rfl rfl⟩

/-- C9: resuming while the suspended-state file is owned by another tool
raises `UserError` before the unlink step: the failed resume returns the
state unchanged, the other tool's file still on disk. -/
theorem c9_resume_wrong_tool (tool : String) (g : List ContData → Run Unit)
    (s : Repo) (f : SuspFile) (hfile : s.contFile = some f) (htool : f.tool ≠ tool) :
    mainResume tool g s =
      (.error (.userError ("A " ++ f.tool ++ " operation is currently in progress")), s) ∧
    (mainResume tool g s).2.contFile = some f := by
  have h : mainResume tool g s =
      (.error (.userError ("A " ++ f.tool ++ " operation is currently in progress")), s) := by
    unfold mainResume
    rw [hfile]
    simp [htool]
  exact ⟨h, by rw [h]; exact hfile⟩

/-- Closed witness for `c9_resume_wrong_tool`: a `git-edit` resume against a
`git-swap` suspended state fails and leaves the file. -/
theorem c9_witness :
    mainResume "git-edit" (fun _ s => (.ok (), s)) repoBusy =
      (.error (.userError ("A " ++ suspSwap.tool ++ " operation is currently in progress")),
       repoBusy) ∧
    (mainResume "git-edit" (fun _ s => (.ok (), s)) repoBusy).2.contFile = some suspSwap :=
  c9_resume_wrong_tool "git-edit" (fun _ s => (.ok (), s)) repoBusy suspSwap rfl
    (by decide)

/-! ## Suspend capture across nested scopes (C3) -/

theorem nestScopes_suspend (tails : ContData → Except Exc Unit → Run Unit)
    (scopes : List ContData) (body : Run Unit) (s s1 : Repo)
    (st : Option String) (cs0 : List ContData)
    (hbody : body s = (.error (.suspend st cs0), s1)) :
    nestScopes tails scopes body s =
      (.error (.suspend st (cs0 ++ scopes.reverse)), s1) := by
  induction scopes with
  | nil => simpa using hbody
  | cons c rest ih =>
    show runScope c (tails c) (nestScopes tails rest body) s = _
    unfold runScope
    rw [ih]
    simp

/-- C3: when a `Suspend` signal propagates out of a nest of continuation
scopes, no scope's release tail runs (the outcome is the same for every
assignment of tails, and the state is exactly the state at the raise); each
scope appends itself, yielding a capture list ordered innermost first
(`scopes.reverse` for a nest listed outermost first); and the suspend writer
reverses that list, so the file stores the scopes outermost first. -/
theorem c3_suspend_capture_order (tool : String)
    (tails : ContData → Except Exc Unit → Run Unit)
    (scopes : List ContData) (body : Run Unit) (s s1 : Repo) (st : Option String)
    (hbody : body s = (.error (.suspend st []), s1)) :
    nestScopes tails scopes body s = (.error (.suspend st scopes.reverse), s1) ∧
    mainSuspend tool st scopes.reverse s1 =
      (.error (.exit 2), { s1 with contFile := some ⟨tool, st, scopes⟩ }) := by
  constructor
  · simpa using nestScopes_suspend tails scopes body s s1 st [] hbody
  · unfold mainSuspend
    rw [List.reverse_reverse]

/-- Closed witness for `c3_suspend_capture_order`: two nested scopes around a
body that suspends; the capture list is innermost first, the file outermost
first, and the (state-changing) tails never run. -/
theorem c3_witness :
    nestScopes (fun _ _ => fun s => (.ok (), { s with clean := false }))
      [ContData.swapCheckpoint "shaC", ContData.pickCherryWithReference "shaB" "shaC"]
      (fun s => (.error (.suspend (some "conflict") []), s)) repo0 =
      (.error (.suspend (some "conflict")
        [ContData.swapCheckpoint "shaC",
         ContData.pickCherryWithReference "shaB" "shaC"].reverse), repo0) ∧
    mainSuspend "git-swap" (some "conflict")
      [ContData.swapCheckpoint "shaC",
       ContData.pickCherryWithReference "shaB" "shaC"].reverse repo0 =
      (.error (.exit 2),
       { repo0 with contFile := some ⟨"git-swap", some "conflict",
          [ContData.swapCheckpoint "shaC",
           ContData.pickCherryWithReference "shaB" "shaC"]⟩ }) :=
  c3_suspend_capture_order "git-swap"
    (fun _ _ => fun s => (.ok (), { s with clean := false }))
    [ContData.swapCheckpoint "shaC", ContData.pickCherryWithReference "shaB" "shaC"]
    (fun s => (.error (.suspend (some "conflict") []), s)) repo0 repo0 (some "conflict") rfl

/-! ## PickCherries serializes exactly the unpicked suffix (C7) -/

theorem pickLoop_suspends (cp : CPOracle) (c : String) (rest : List String)
    (hc1 : ∀ t, (cp c t).1 = CPRes.fail)
    (hc2 : ∀ t, ((cp c t).2).cherryPickInProgress = true) :
    ∀ (done : List String), (∀ d ∈ done, ∀ t, (cp d t).1 = CPRes.ok) →
    ∀ s, ∃ s2, pickCherriesLoop cp true (done ++ c :: rest) s =
      ((.error (.suspend (some ("cherry-picking " ++ c)) [.cherryPickContinue c]), s2),
       rest) := by
  intro done
  induction done with
  | nil =>
    intro _ s
    rcases h : cp c s with ⟨res, s1⟩
    have h1 : res = CPRes.fail := by have hh := hc1 s; rw [h] at hh; exact hh
    have h2 : s1.cherryPickInProgress = true := by have hh := hc2 s; rw [h] at hh; exact hh
    subst h1
    refine ⟨s1, ?_⟩
    show pickCherriesLoop cp true (c :: rest) s = _
    simp only [pickCherriesLoop, cherryPickFn, h, h2]
    rfl
  | cons d done ih =>
    intro hok s
    rcases h : cp d s with ⟨res, s1⟩
    have h1 : res = CPRes.ok := by
      have hh := hok d (by simp) s; rw [h] at hh; exact hh
    subst h1
    obtain ⟨s2, hs2⟩ := ih (fun x hx t => hok x (by simp [hx]) t) s1
    refine ⟨s2, ?_⟩
    show pickCherriesLoop cp true ((d :: done) ++ c :: rest) s = _
    rw [List.cons_append]
    simp only [pickCherriesLoop, cherryPickFn, h]
    exact hs2

/-- C7: when a `PickCherries` scope suspends while picking a cherry, the
`cherries` attribute it captures is exactly the not-yet-picked suffix: every
already-picked cherry, and the cherry whose pick is in progress (owned by the
freshly installed `CherryPickContinue`), has been popped off the list before
the pick was attempted, so rehydration picks only what remains. -/
theorem c7_pickcherries_suffix (cp : CPOracle) (done : List String) (c : String)
    (rest : List String) (body : Run Unit) (s s1 : Repo)
    (hbody : body s = (.ok (), s1))
    (hok : ∀ d ∈ done, ∀ t, (cp d t).1 = CPRes.ok)
    (hc1 : ∀ t, (cp c t).1 = CPRes.fail)
    (hc2 : ∀ t, ((cp c t).2).cherryPickInProgress = true) :
    ∃ s2, runPickCherries cp (done ++ c :: rest) true body s =
      (.error (.suspend (some ("cherry-picking " ++ c))
        [.cherryPickContinue c, .pickCherries rest true]), s2) := by
  obtain ⟨s2, hs2⟩ := pickLoop_suspends cp c rest hc1 hc2 done hok s1
  refine ⟨s2, ?_⟩
  simp only [runPickCherries, hbody, hs2]
  rfl

/-- Closed witness for `c7_pickcherries_suffix`: three cherries, the second
conflicts; the file records `CherryPickContinue` for it and `PickCherries`
with just the third. -/
theorem c7_witness :
    ∃ s2, runPickCherries (cpConflictOn "x2") (["x1"] ++ "x2" :: ["x3"]) true
        (fun s => (.ok (), s)) repo0 =
      (.error (.suspend (some ("cherry-picking " ++ "x2"))
        [.cherryPickContinue "x2", .pickCherries ["x3"] true]), s2) :=
  c7_pickcherries_suffix (cpConflictOn "x2") ["x1"] "x2" ["x3"]
    (fun s => (.ok (), s)) repo0 repo0 rfl
    (by
      intro d hd t
      have hd1 : d = "x1" := by simpa using hd
      subst hd1
      simp [cpConflictOn])
    (by intro t; simp [cpConflictOn])
    (by intro t; simp [cpConflictOn])

/-! ## unique_parent at roots and merges; collect_cherries termination (C10) -/

theorem uniqueParent_merge (s : Repo) (c : CommitObj) (h : c.parents.length ≠ 1) :
    uniqueParentPure s c = .error (.mergeFound (c.sha.take 10 ++ " is a merge")) := by
  unfold uniqueParentPure
  rcases hp : c.parents with _ | ⟨p, _ | ⟨q, r⟩⟩
  · rfl
  · rw [hp] at h; simp at h
  · rfl

theorem rootWalk_userError (s : Repo) (target : String) (head : CommitObj) (n : Nat)
    (hw : RootWalk s target head n) :
    ∀ (fuel : Nat) (acc : List String), n < fuel →
    ∃ m, collectCherriesLoop s target fuel head acc = .error (.userError m) := by
  induction hw with
  | root c hne hpar =>
    intro fuel acc hfuel
    match fuel, hfuel with
    | f + 1, _ =>
      refine ⟨"Error: " ++ (c.sha.take 10 ++ " is a merge"), ?_⟩
      show collectCherriesLoop s target (f + 1) c acc = _
      unfold collectCherriesLoop
      rw [if_neg hne]
      unfold uniqueParentPure
      rw [hpar]
  | step c p n hne hpar hps hlook hw ih =>
    intro fuel acc hfuel
    match fuel, hfuel with
    | f + 1, hf =>
      obtain ⟨m, hm⟩ := ih f (c.sha :: acc) (Nat.lt_of_succ_lt_succ hf)
      refine ⟨m, ?_⟩
      show collectCherriesLoop s target (f + 1) c acc = _
      unfold collectCherriesLoop
      rw [if_neg hne]
      have hup : uniqueParentPure s c = .ok p := by
        unfold uniqueParentPure
        rw [hpar]
        simp only [commitOf, if_neg hps, hlook]
      rw [hup]
      exact hm

/-- C10: `unique_parent` raises `MergeFound` for every commit whose parent
count differs from one — a root with zero parents included — and therefore a
`collect_cherries` walk that reaches a root without meeting its target
terminates with that error surfaced as `UserError` (rather than looping or
reporting a missing ancestor). -/
theorem c10_unique_parent_merge_found :
    (∀ (s : Repo) (c : CommitObj), c.parents.length ≠ 1 →
      uniqueParentPure s c = .error (.mergeFound (c.sha.take 10 ++ " is a merge"))) ∧
    (∀ (s : Repo) (target : String) (head : CommitObj) (n fuel : Nat) (acc : List String),
      RootWalk s target head n → n < fuel →
      ∃ m, collectCherriesLoop s target fuel head acc = .error (.userError m)) :=
  ⟨uniqueParent_merge,
   fun s target head n fuel acc hw hf => rootWalk_userError s target head n hw fuel acc hf⟩

/-- Closed witness for `c10_unique_parent_merge_found`: the root commit (zero
parents) trips `MergeFound`, and a walk from `cMid` after a missing target
ends in `UserError`. -/
theorem c10_witness :
    uniqueParentPure repo0 cRoot =
      .error (.mergeFound (cRoot.sha.take 10 ++ " is a merge")) ∧
    ∃ m, collectCherriesLoop repo0 "zzz" 3 cMid [] = .error (.userError m) :=
  ⟨c10_unique_parent_merge_found.1 repo0 cRoot (by decide),
   c10_unique_parent_merge_found.2 repo0 "zzz" cMid 1 3 []
     (RootWalk.step cMid cRoot 0 (by decide) (by decide) (by decide) (by decide)
       (RootWalk.root cRoot (by decide) (by decide)))
     (by decide)⟩

/-! ## Baseline refusal and checkpoint restoration (C5) -/

theorem swapCheckpoint_restores (head : String) (body : Run Unit) (s s1 s2 : Repo)
    (e : Exc) (hbody : body s = (.error e, s1)) (hc : e.catchable = true)
    (hco : checkoutRef s1 head = .ok s2) :
    runScope (.swapCheckpoint head) (swapCheckpointTail head) body s = (.error e, s2) := by
  cases e <;>
    simp_all [runScope, swapCheckpointTail, Exc.catchable, Exc.isSuspend, Exc.isExit]

/-- C5: `swap` fails with `SwapFailed("hit baseline")` and leaves the
repository untouched whenever the unique parent `two` of HEAD (with its
parent-or-root resolvable) has its sha among the branch's baselines; and a
`SwapCheckpoint` scope reacts to every failure or `Resume` signal from below
(everything but `Suspend` and `SystemExit`) by force-checking-out the
recorded head before re-raising the same exception. -/
theorem c5_baseline_checkpoint :
    (∀ (cp : CPOracle) (edit : Bool) (baselines : List String) (s : Repo)
       (one two : CommitObj) (three : Option CommitObj),
      commitOf s "HEAD" = .ok one → swapParents s one = .ok (two, three) →
      baselines.contains two.sha = true →
      swap cp edit baselines s = (.error (.swapFailed "hit baseline"), s)) ∧
    (∀ (head : String) (body : Run Unit) (s s1 s2 : Repo) (e : Exc),
      body s = (.error e, s1) → e.catchable = true → checkoutRef s1 head = .ok s2 →
      runScope (.swapCheckpoint head) (swapCheckpointTail head) body s = (.error e, s2)) := by
  constructor
  · intro cp edit baselines s one two three h1 h2 h3
    have hmem : two.sha ∈ baselines := by simpa using h3
    simp [swap, h1, h2, hmem]
  · exact swapCheckpoint_restores

/-- Closed witness for `c5_baseline_checkpoint`: on `repo0` with `shaB`
declared a baseline the swap refuses without touching the state, and a
checkpoint on `shaA` restores the root checkout around an `Abort`. -/
theorem c5_witness :
    swap cpOk false ["shaB"] repo0 = (.error (.swapFailed "hit baseline"), repo0) ∧
    runScope (.swapCheckpoint "shaA") (swapCheckpointTail "shaA")
      (fun s => (.error .abortE, s)) repo0 = (.error .abortE, repoAtRoot) :=
  ⟨c5_baseline_checkpoint.1 cpOk false ["shaB"] repo0 cTop cMid (some cRoot)
    (by rfl) (by rfl) (by decide),
   c5_baseline_checkpoint.2 "shaA" (fun s => (.error .abortE, s)) repo0 repo0 repoAtRoot
    .abortE rfl (by decide) (by rfl)⟩

/-! ## Message cleanup lemmas (for C6) -/

theorem collapseEmpty_cons2 (x y : String) (rest : List String) :
    collapseEmpty (x :: y :: rest) =
      if x = "" && y = "" then collapseEmpty (y :: rest)
      else x :: collapseEmpty (y :: rest) := rfl

theorem collapseEmpty_of_noTwo (ls : List String) (h : noTwoEmpty ls = true) :
    collapseEmpty ls = ls := by
  induction ls with
  | nil => rfl
  | cons x tl ih =>
    cases tl with
    | nil => rfl
    | cons y rest =>
      have h2 : noTwoEmpty (y :: rest) = true := by
        simp only [noTwoEmpty, Bool.and_eq_true] at h
        exact h.2
      have h1 : ¬ (x = "" ∧ y = "") := by
        simp only [noTwoEmpty, Bool.and_eq_true, Bool.not_eq_true'] at h
        intro hxy
        rcases h with ⟨hh, _⟩
        rw [hxy.1, hxy.2] at hh
        simp at hh
      rw [collapseEmpty_cons2,
        if_neg (by simp only [Bool.and_eq_true, decide_eq_true_eq]; exact h1), ih h2]

theorem collapse_junction_nil (LA : List String) (hA : LA.head? ≠ some "") :
    collapseEmpty ("" :: "" :: LA) = "" :: collapseEmpty LA := by
  rw [collapseEmpty_cons2, if_pos (by simp)]
  cases LA with
  | nil => rfl
  | cons a rest =>
    have ha : ¬ (a = "") := fun hh => hA (by rw [hh]; rfl)
    rw [collapseEmpty_cons2,
      if_neg (by simp only [Bool.and_eq_true, decide_eq_true_eq]; exact fun hc => ha hc.2)]

theorem collapse_junction (LA : List String) (hA : LA.head? ≠ some "") :
    ∀ (LB : List String), noTwoEmpty (LB ++ [""]) = true →
    collapseEmpty (LB ++ "" :: "" :: LA) = LB ++ "" :: collapseEmpty LA := by
  intro LB
  induction LB with
  | nil => intro _; exact collapse_junction_nil LA hA
  | cons b LB2 ih =>
    intro h
    cases LB2 with
    | nil =>
      have hb : ¬ (b = "") := by
        simp only [List.nil_append, List.cons_append, noTwoEmpty, Bool.and_eq_true,
          Bool.not_eq_true'] at h
        intro hh
        rcases h with ⟨hh2, _⟩
        rw [hh] at hh2
        simp at hh2
      show collapseEmpty (b :: "" :: "" :: LA) = b :: "" :: collapseEmpty LA
      rw [collapseEmpty_cons2,
        if_neg (by simp only [Bool.and_eq_true, decide_eq_true_eq]; exact fun hc => hb hc.1),
        collapse_junction_nil LA hA]
    | cons b2 LB3 =>
      have hsplit : ¬ (b = "" ∧ b2 = "") := by
        simp only [List.cons_append, noTwoEmpty, Bool.and_eq_true, Bool.not_eq_true'] at h
        intro hh
        rcases h with ⟨hh2, _⟩
        rw [hh.1, hh.2] at hh2
        simp at hh2
      have h2 : noTwoEmpty ((b2 :: LB3) ++ [""]) = true := by
        simp only [List.cons_append, noTwoEmpty, Bool.and_eq_true] at h ⊢
        exact h.2
      show collapseEmpty (b :: b2 :: (LB3 ++ "" :: "" :: LA)) =
        b :: b2 :: (LB3 ++ "" :: collapseEmpty LA)
      rw [collapseEmpty_cons2,
        if_neg (by simp only [Bool.and_eq_true, decide_eq_true_eq]; exact hsplit)]
      have hih := ih h2
      simp only [List.cons_append] at hih
      rw [hih]

theorem dropWhile_of_head (ls : List String) (h : ls.head? ≠ some "") :
    ls.dropWhile (fun l => l = "") = ls := by
  cases ls with
  | nil => rfl
  | cons a tl =>
    have ha : ¬ (a = "") := fun hh => h (by rw [hh]; rfl)
    simp [List.dropWhile_cons, ha]

theorem dropTrailingEmpty_of_getLast (ls : List String) (h : ls.getLast? ≠ some "") :
    dropTrailingEmpty ls = ls := by
  unfold dropTrailingEmpty
  rw [dropWhile_of_head]
  · exact ls.reverse_reverse
  · rw [List.head?_reverse]; exact h

theorem noTwoEmpty_append_single (ls : List String) (h1 : noTwoEmpty ls = true)
    (h2 : ls.getLast? ≠ some "") : noTwoEmpty (ls ++ [""]) = true := by
  induction ls with
  | nil => rfl
  | cons a tl ih =>
    cases tl with
    | nil =>
      have ha : ¬ (a = "") := fun hh => h2 (by simp [hh])
      simp [noTwoEmpty, ha]
    | cons b tl2 =>
      have hgl : (b :: tl2).getLast? ≠ some "" := by
        rwa [List.getLast?_cons_cons] at h2
      have hparts : (¬ (a = "" ∧ b = "")) ∧ noTwoEmpty (b :: tl2) = true := by
        simp only [noTwoEmpty, Bool.and_eq_true, Bool.not_eq_true'] at h1
        refine ⟨?_, h1.2⟩
        intro hh
        have := h1.1
        rw [hh.1, hh.2] at this
        simp at this
      have := ih hparts.2 hgl
      show noTwoEmpty (a :: b :: (tl2 ++ [""])) = true
      simp only [noTwoEmpty, Bool.and_eq_true]
      constructor
      · simp only [Bool.not_eq_true']
        by_cases hA : a = ""
        · by_cases hB : b = ""
          · exact absurd ⟨hA, hB⟩ hparts.1
          · simp [hA, hB]
        · simp [hA]
      · simpa only [List.cons_append] using this

theorem cleanMsg_parts (ls : List String) (h : cleanMsg ls = true) :
    ls ≠ [] ∧ ls.head? ≠ some "" ∧ ls.getLast? ≠ some "" ∧ noTwoEmpty ls = true := by
  simp only [cleanMsg, Bool.and_eq_true, Bool.not_eq_true', beq_eq_false_iff_ne, ne_eq,
    List.isEmpty_eq_false] at h
  exact ⟨h.1.1.1, h.1.1.2, h.1.2, h.2⟩

/-- The VCS's message cleanup on the squash `COMMIT_EDITMSG`: with both
messages already clean, the two blank lines the source writes between them
collapse to exactly one. -/
theorem cleanupStrip_squash (B A : List String)
    (hB : cleanMsg B = true) (hA : cleanMsg A = true) :
    cleanupStrip (B ++ "" :: "" :: A) = B ++ "" :: A := by
  obtain ⟨hBne, hBhead, hBlast, hBtwo⟩ := cleanMsg_parts B hB
  obtain ⟨hAne, hAhead, hAlast, hAtwo⟩ := cleanMsg_parts A hA
  unfold cleanupStrip
  rw [collapse_junction A hAhead B (noTwoEmpty_append_single B hBtwo hBlast),
    collapseEmpty_of_noTwo A hAtwo]
  have hhead : (B ++ "" :: A).head? ≠ some "" := by
    cases B with
    | nil => exact absurd rfl hBne
    | cons b bt =>
      simpa using hBhead
  rw [dropWhile_of_head _ hhead]
  have hlast : (B ++ "" :: A).getLast? ≠ some "" := by
    rw [List.getLast?_append_cons]
    cases A with
    | nil => exact absurd rfl hAne
    | cons a at2 =>
      rw [List.getLast?_cons_cons]
      exact hAlast
  exact dropTrailingEmpty_of_getLast _ hlast

/-! ## Commit lookup helpers -/

theorem lookupCommit_sha (s : Repo) (x : String) (c : CommitObj)
    (h : lookupCommit s x = some c) : c.sha = x := by
  unfold lookupCommit at h
  have hs := List.find?_some h
  simpa using hs

theorem lookupCommit_self (s : Repo) (x : String) (c : CommitObj)
    (h : lookupCommit s x = some c) : lookupCommit s c.sha = some c := by
  rw [lookupCommit_sha s x c h]; exact h

theorem commitOf_lookup (s : Repo) (ref : String) (c : CommitObj)
    (h : commitOf s ref = .ok c) : lookupCommit s c.sha = some c := by
  unfold commitOf at h
  split at h
  · exact absurd h (by simp)
  · split at h
    · exact absurd h (by simp)
    · rename_i x1 sha heq1 x2 c0 heq2
      have hc : c0 = c := by simpa using h
      subst hc
      exact lookupCommit_self s sha c0 heq2

theorem uniqueParent_lookup (s : Repo) (c p : CommitObj)
    (h : uniqueParentPure s c = .ok p) : lookupCommit s p.sha = some p := by
  unfold uniqueParentPure at h
  rcases hp : c.parents with _ | ⟨x, tl⟩
  · rw [hp] at h; exact absurd h (by simp)
  · cases tl with
    | nil => rw [hp] at h; exact commitOf_lookup s x p h
    | cons y r => rw [hp] at h; exact absurd h (by simp)

theorem uniqueParentOrRoot_some (s : Repo) (c p : CommitObj)
    (h : uniqueParentOrRootPure s c = .ok (some p)) : uniqueParentPure s c = .ok p := by
  unfold uniqueParentOrRootPure at h
  rcases hp : c.parents with _ | ⟨x, tl⟩
  · rw [hp] at h; exact absurd h (by simp)
  · rw [hp] at h
    cases hu : uniqueParentPure s c with
    | error e => rw [hu] at h; exact absurd h (by simp [Except.map])
    | ok q =>
      rw [hu] at h
      have hq : q = p := by simpa [Except.map] using h
      rw [← hq]

theorem uniqueParentOrRoot_none (s : Repo) (c : CommitObj)
    (h : uniqueParentOrRootPure s c = .ok none) : c.parents = [] := by
  unfold uniqueParentOrRootPure at h
  rcases hp : c.parents with _ | ⟨x, tl⟩
  · rfl
  · rw [hp] at h
    cases hu : uniqueParentPure s c with
    | error e => rw [hu] at h; simp [Except.map] at h
    | ok q => rw [hu] at h; simp [Except.map] at h

/-! ## The squash completion (C6) -/

theorem orSquashFinish_squash_some (s : Repo) (A B c : CommitObj)
    (hlookC : lookupCommit s c.sha = some c)
    (hlookA : lookupCommit s A.sha = some A)
    (hmB : cleanMsg B.message = true) (hmA : cleanMsg A.message = true) :
    orSquashFinish A B (some c) true s =
      (.ok (), { s with
        commits := ⟨freshSha s, [c.sha], A.tree, B.author, s.ident,
          B.message ++ "" :: A.message⟩ :: s.commits,
        headRef := none, headSha := freshSha s,
        indexTree := A.tree, worktree := A.tree,
        msgFile := B.message ++ "" :: "" :: A.message,
        fresh := s.fresh + 1 }) := by
  have hclean := cleanupStrip_squash B.message A.message hmB hmA
  unfold lookupCommit at hlookC hlookA
  simp only [orSquashFinish, checkoutBaseline, Option.map, checkoutSha, readTree,
    commitEditMsg, doCommit, resetHard, resolveHead, commitParents, freshSha,
    lookupCommit, hlookC, hlookA, hclean, List.find?]
  simp

theorem orSquashFinish_squash_none (s : Repo) (A B : CommitObj)
    (hlookA : lookupCommit s A.sha = some A)
    (hmB : cleanMsg B.message = true) (hmA : cleanMsg A.message = true) :
    ∃ ps bs, orSquashFinish A B none true s =
      (.ok (), { s with
        commits := ⟨freshSha s, ps, A.tree, B.author, s.ident,
          B.message ++ "" :: A.message⟩ :: s.commits,
        headRef := none, headSha := freshSha s, branches := bs,
        indexTree := A.tree, worktree := A.tree,
        msgFile := B.message ++ "" :: "" :: A.message,
        fresh := s.fresh + 1 }) := by
  have hclean := cleanupStrip_squash B.message A.message hmB hmA
  unfold lookupCommit at hlookA
  refine ⟨(match branchSha s (freshTempName s) with
    | some sha => [sha]
    | none => []),
    s.branches.filter (fun p => p.1 ≠ freshTempName s), ?_⟩
  simp only [orSquashFinish, checkoutBaseline, tempBranchScope, runScope, dtbTail,
    deleteIndexAndFiles, checkoutOrphan, readTree, commitEditMsg, doCommit, resetHard,
    resolveHead, commitParents, branchSha, freshSha, lookupCommit, onOrphanBranch,
    detach, checkoutSha, branchExists, deleteBranch, emptyTree, Option.map,
    hlookA, hclean, List.find?]
  simp

/-- C6: consuming a `Squash` signal, `OrSquash` takes `A = head`,
`B = unique_parent(A)`, `C = parent-or-root of B`, checks out `C` (or an
orphan temp branch when `B` is a root), reads `A`'s tree, and creates a
commit whose author identity is copied from `B` through the `GIT_AUTHOR_*`
environment variables and whose message is `B`'s message, a single blank
line, then `A`'s message (after the VCS's message cleanup), then raises
`Stop`. -/
theorem c6_squash_semantics (s : Repo) (head : String) (A B : CommitObj)
    (C : Option CommitObj)
    (hA : commitOf s head = .ok A)
    (hB : uniqueParentPure s A = .ok B)
    (hC : uniqueParentOrRootPure s B = .ok C)
    (hmB : cleanMsg B.message = true)
    (hmA : cleanMsg A.message = true) :
    ∃ sq c2, orSquashTail head (.error .squashR) s = (.error .stopR, sq) ∧
      headCommit sq = some c2 ∧
      c2.author = B.author ∧
      c2.message = B.message ++ "" :: A.message ∧
      c2.tree = A.tree ∧
      (∀ c, C = some c → c2.parents = [c.sha]) := by
  have hlookA := commitOf_lookup s head A hA
  cases C with
  | some c =>
    have hup := uniqueParentOrRoot_some s B c hC
    have hlookC := uniqueParent_lookup s B c hup
    have hfin := orSquashFinish_squash_some s A B c hlookC hlookA hmB hmA
    refine ⟨{ s with
        commits := ⟨freshSha s, [c.sha], A.tree, B.author, s.ident,
          B.message ++ "" :: A.message⟩ :: s.commits,
        headRef := none, headSha := freshSha s,
        indexTree := A.tree, worktree := A.tree,
        msgFile := B.message ++ "" :: "" :: A.message,
        fresh := s.fresh + 1 },
      ⟨freshSha s, [c.sha], A.tree, B.author, s.ident,
      B.message ++ "" :: A.message⟩, ?_, ?_, rfl, rfl, rfl, ?_⟩
    · simp only [orSquashTail, orSquashHandle, hA, hB, hC, hfin]
    · simp [headCommit, resolveHead, lookupCommit, List.find?]
    · intro c0 hc0
      have hcc : c = c0 := by injection hc0
      subst hcc
      rfl
  | none =>
    obtain ⟨ps, bs, hfin⟩ := orSquashFinish_squash_none s A B hlookA hmB hmA
    refine ⟨{ s with
        commits := ⟨freshSha s, ps, A.tree, B.author, s.ident,
          B.message ++ "" :: A.message⟩ :: s.commits,
        headRef := none, headSha := freshSha s, branches := bs,
        indexTree := A.tree, worktree := A.tree,
        msgFile := B.message ++ "" :: "" :: A.message,
        fresh := s.fresh + 1 },
      ⟨freshSha s, ps, A.tree, B.author, s.ident,
      B.message ++ "" :: A.message⟩, ?_, ?_, rfl, rfl, rfl, ?_⟩
    · simp only [orSquashTail, orSquashHandle, hA, hB, hC, hfin]
    · simp [headCommit, resolveHead, lookupCommit, List.find?]
    · intro c0 hc0
      cases hc0

/-- Closed witness for `c6_squash_semantics` on `repo0`: squashing `shaC`
into `shaB` above the root `shaA` produces a commit with `shaB`'s author
(`authB`) and the merged message. -/
theorem c6_witness :
    ∃ sq c2, orSquashTail "shaC" (.error .squashR) repo0 = (.error .stopR, sq) ∧
      headCommit sq = some c2 ∧
      c2.author = cMid.author ∧
      c2.message = cMid.message ++ "" :: cTop.message ∧
      c2.tree = cTop.tree ∧
      (∀ c, some cRoot = some c → c2.parents = [c.sha]) :=
  c6_squash_semantics repo0 "shaC" cTop cMid (some cRoot)
    (by rfl) (by rfl) (by rfl) (by decide) (by decide)

/-! ## Inversion lemmas for the swap success path (C1) -/

theorem prod_match_scope_ok (self : ContData) (p : Except Exc Unit × Repo) (sf : Repo)
    (h : (match p with
      | (.error (.suspend st cs), s2) => (.error (.suspend st (cs ++ [self])), s2)
      | r2 => r2) = (.ok (), sf)) : p = (.ok (), sf) := by
  rcases p with ⟨r2, s2⟩
  rcases r2 with e | u
  · cases e <;> simpa using h
  · exact h

theorem runScope_ok_inv (self : ContData) (tail : Except Exc Unit → Run Unit)
    (body : Run Unit) (s sf : Repo)
    (h : runScope self tail body s = (.ok (), sf)) :
    ∃ r s1, body s = (r, s1) ∧ (∀ st cs, r ≠ .error (.suspend st cs)) ∧
      tail r s1 = (.ok (), sf) := by
  unfold runScope at h
  rcases hb : body s with ⟨r, s1⟩
  rw [hb] at h
  rcases r with e | u
  case mk.ok => exact ⟨.ok u, s1, rfl, by simp, prod_match_scope_ok self _ sf h⟩
  case mk.error => cases e with
    | suspend st cs => exact absurd h (by simp)
    | stopR => exact ⟨_, s1, rfl, by simp, prod_match_scope_ok self _ sf h⟩
    | squashR => exact ⟨_, s1, rfl, by simp, prod_match_scope_ok self _ sf h⟩
    | fixupR => exact ⟨_, s1, rfl, by simp, prod_match_scope_ok self _ sf h⟩
    | abortE => exact ⟨_, s1, rfl, by simp, prod_match_scope_ok self _ sf h⟩
    | userError m => exact ⟨_, s1, rfl, by simp, prod_match_scope_ok self _ sf h⟩
    | gitFailed m => exact ⟨_, s1, rfl, by simp, prod_match_scope_ok self _ sf h⟩
    | swapFailed m => exact ⟨_, s1, rfl, by simp, prod_match_scope_ok self _ sf h⟩
    | mergeFound m => exact ⟨_, s1, rfl, by simp, prod_match_scope_ok self _ sf h⟩
    | keyError m => exact ⟨_, s1, rfl, by simp, prod_match_scope_ok self _ sf h⟩
    | internalError m => exact ⟨_, s1, rfl, by simp, prod_match_scope_ok self _ sf h⟩
    | exit n => exact ⟨_, s1, rfl, by simp, prod_match_scope_ok self _ sf h⟩

theorem swapCheckpointTail_ok_inv (head : String) (r : Except Exc Unit) (s sf : Repo)
    (h : swapCheckpointTail head r s = (.ok (), sf)) : r = .ok () ∧ sf = s := by
  rcases r with e | u
  · unfold swapCheckpointTail at h
    split at h
    · simp_all
    · split at h
      · split at h <;> simp_all
      · simp_all
  · refine ⟨rfl, ?_⟩
    have hh : ((Except.ok () : Except Exc Unit), s) = ((Except.ok () : Except Exc Unit), sf) := h
    simpa using hh.symm

theorem pcwrTail_ok_inv (ch ref : String) (r : Except Exc Unit) (s sf : Repo)
    (h : pcwrTail ch ref r s = (.ok (), sf)) :
    r = .ok () ∧ ∃ s1 s2, readTree s ref = .ok s1 ∧ commitReuse s1 ch = .ok s2 ∧
      resetHard s2 = .ok sf := by
  rcases r with e | u
  · exact absurd h (by simp [pcwrTail])
  · unfold pcwrTail at h
    have h2 : (match readTree s ref with
      | .error e => ((.error e : Except Exc Unit), s)
      | .ok s1 =>
        match commitReuse s1 ch with
        | .error e => (.error e, s1)
        | .ok s2 =>
          match resetHard s2 with
          | .error e => (.error e, s2)
          | .ok s3 => (.ok (), s3)) = (.ok (), sf) := h
    clear h
    split at h2
    · simp_all
    · split at h2
      · simp_all
      · split at h2
        · simp_all
        · rename_i x1 s1 heq1 x2 s2 heq2 x3 s3 heq3
          have hs : s3 = sf := by simpa using h2
          subst hs
          exact ⟨rfl, s1, s2, heq1, heq2, heq3⟩

theorem dtbTail_ok_inv (branch prev : String) (r : Except Exc Unit) (s sf : Repo)
    (h : dtbTail branch prev r s = (.ok (), sf)) :
    r = .ok () ∧ ∃ s1,
      (if onOrphanBranch s then checkoutRef s prev else detach s) = .ok s1 ∧
      sf = (if branchExists s1 branch then deleteBranch s1 branch else s1) := by
  unfold dtbTail at h
  split at h
  · simp_all
  · rename_i s1 heq
    have hp : r = Except.ok () ∧
        (if branchExists s1 branch then deleteBranch s1 branch else s1) = sf := by
      simpa [Prod.ext_iff] using h
    exact ⟨hp.1, s1, heq, hp.2.symm⟩

theorem swapInner_ok_inv (cp : CPOracle) (edit : Bool) (one two : CommitObj)
    (s s1 : Repo) (h : swapInner cp edit one two s = (.ok (), s1)) :
    cp one.sha s = (CPRes.ok, s1) := by
  unfold swapInner cherryPickFn at h
  rcases ho : cp one.sha s with ⟨res, t⟩
  rw [ho] at h
  cases res with
  | ok =>
    have ht : t = s1 := by simpa using h
    subst ht
    rfl
  | fail =>
    by_cases hc : (edit && t.cherryPickInProgress) = true <;> simp_all

theorem swapParents_ok_inv (s : Repo) (one two : CommitObj) (three : Option CommitObj)
    (h : swapParents s one = .ok (two, three)) :
    uniqueParentPure s one = .ok two ∧ uniqueParentOrRootPure s two = .ok three := by
  unfold swapParents at h
  split at h
  · simp_all
  · simp_all
  · rename_i two0 heq0
    split at h
    · simp_all
    · simp_all
    · rename_i three0 heq1
      have hp : two0 = two ∧ three0 = three := by simpa using h
      rw [← hp.1, ← hp.2]
      exact ⟨heq0, heq1⟩

theorem commitOf_head_headCommit (s : Repo) (c : CommitObj)
    (h : commitOf s "HEAD" = .ok c) : headCommit s = some c := by
  unfold commitOf at h
  rw [if_pos rfl] at h
  split at h
  · simp_all
  · rename_i x sha heq
    split at h
    · simp_all
    · rename_i y c0 heq2
      have hc : c0 = c := by simpa using h
      subst hc
      unfold headCommit
      simp [heq, heq2]

theorem checkoutSha_ok_inv (s s1 : Repo) (x : String)
    (h : checkoutSha s x = .ok s1) :
    ∃ c, lookupCommit s x = some c ∧
      s1 = { s with
        headRef := none, headSha := x,
        indexTree := c.tree, worktree := c.tree } := by
  unfold checkoutSha at h
  split at h
  · simp_all
  · rename_i c heq
    exact ⟨c, heq, by simpa using h.symm⟩

theorem detach_ok_headCommit (s s2 : Repo) (h : detach s = .ok s2) :
    headCommit s2 = headCommit s ∧ s2.headRef = none := by
  unfold detach at h
  split at h
  · simp_all
  · rename_i sha heq
    obtain ⟨c, hl, hs2⟩ := checkoutSha_ok_inv s s2 sha h
    subst hs2
    refine ⟨?_, rfl⟩
    have hR : headCommit s = lookupCommit s sha := by
      unfold headCommit
      simp only [heq]
    rw [hR]
    rfl

theorem headCommit_deleteBranch (t : Repo) (b : String) (h : t.headRef = none) :
    headCommit (deleteBranch t b) = headCommit t := by
  unfold headCommit resolveHead deleteBranch
  simp only [h]
  rfl

theorem doCommit_facts (t : Repo) (a : AuthorDate) (m : List String) :
    resolveHead (doCommit t a m) = some (freshSha t) ∧
    lookupCommit (doCommit t a m) (freshSha t) =
      some ⟨freshSha t, commitParents t, t.indexTree, a, t.ident, m⟩ ∧
    onOrphanBranch (doCommit t a m) = false := by
  cases hh : t.headRef with
  | none =>
    refine ⟨?_, ?_, ?_⟩ <;>
      simp [doCommit, resolveHead, lookupCommit, onOrphanBranch, branchSha,
        List.find?, hh]
  | some b =>
    refine ⟨?_, ?_, ?_⟩ <;>
      simp [doCommit, resolveHead, lookupCommit, onOrphanBranch, branchSha,
        List.find?, hh]

theorem resetHard_doCommit (t : Repo) (a : AuthorDate) (m : List String) :
    resetHard (doCommit t a m) =
      .ok { doCommit t a m with indexTree := t.indexTree, worktree := t.indexTree } := by
  obtain ⟨hres, hlook, _⟩ := doCommit_facts t a m
  unfold resetHard
  simp only [hres, hlook]

theorem headCommit_set_trees (t : Repo) (i w : String) :
    headCommit { t with indexTree := i, worktree := w } = headCommit t :=
  rfl

theorem onOrphan_set_trees (t : Repo) (i w : String) :
    onOrphanBranch { t with indexTree := i, worktree := w } = onOrphanBranch t :=
  rfl

/-- Success of the `PickCherryWithReference` scope: whatever the cherry-pick
oracle did (as long as it preserves the commit store), the scope's success
tail leaves HEAD on a commit whose tree is bit-identical to the reference
commit's tree, with HEAD resolvable (not an orphan). -/
theorem pcwr_scope_ok (cp : CPOracle) (edit : Bool) (one two : CommitObj) (s1 sf : Repo)
    (hcp : ∀ ref t sha c, lookupCommit t sha = some c →
      lookupCommit ((cp ref t).2) sha = some c)
    (h1 : lookupCommit s1 one.sha = some one)
    (h2 : lookupCommit s1 two.sha = some two)
    (hok : runScope (.pickCherryWithReference two.sha one.sha)
      (pcwrTail two.sha one.sha) (swapInner cp edit one two) s1 = (.ok (), sf)) :
    ∃ cf, headCommit sf = some cf ∧ cf.tree = one.tree ∧
      onOrphanBranch sf = false := by
  obtain ⟨r, sA, hbody, hns, htail⟩ := runScope_ok_inv _ _ _ _ _ hok
  obtain ⟨hr, sR1, sR2, hread, hcommit, hreset⟩ := pcwrTail_ok_inv _ _ _ _ _ htail
  subst hr
  have horacle := swapInner_ok_inv cp edit one two s1 sA hbody
  have hA1 : lookupCommit sA one.sha = some one := by
    have hh := hcp one.sha s1 one.sha one h1
    rw [horacle] at hh
    exact hh
  have hA2 : lookupCommit sA two.sha = some two := by
    have hh := hcp one.sha s1 two.sha two h2
    rw [horacle] at hh
    exact hh
  have hread2 : readTree sA one.sha = .ok { sA with indexTree := one.tree } := by
    unfold readTree
    rw [hA1]
  rw [hread2] at hread
  have hsR1 : sR1 = { sA with indexTree := one.tree } := by simpa using hread.symm
  subst hsR1
  have hcommit2 : commitReuse { sA with indexTree := one.tree } two.sha =
      .ok (doCommit { sA with indexTree := one.tree } two.author two.message) := by
    unfold commitReuse
    have hA2b : lookupCommit { sA with indexTree := one.tree } two.sha = some two := hA2
    rw [hA2b]
  rw [hcommit2] at hcommit
  have hsR2 : sR2 = doCommit { sA with indexTree := one.tree } two.author two.message := by
    simpa using hcommit.symm
  subst hsR2
  rw [resetHard_doCommit] at hreset
  have hsf : sf = { doCommit { sA with indexTree := one.tree } two.author two.message with
      indexTree := one.tree, worktree := one.tree } := by
    simpa using hreset.symm
  subst hsf
  obtain ⟨hres, hlook, horph⟩ :=
    doCommit_facts { sA with indexTree := one.tree } two.author two.message
  refine ⟨⟨freshSha { sA with indexTree := one.tree },
    commitParents { sA with indexTree := one.tree }, one.tree, two.author,
    sA.ident, two.message⟩, ?_, rfl, ?_⟩
  · rw [headCommit_set_trees]
    unfold headCommit
    simp only [hres]
    exact hlook
  · rw [onOrphan_set_trees]
    exact horph

/-- C1: every swap invocation that completes successfully leaves HEAD on a
commit whose tree is bit-identical to the tree of the pre-swap HEAD commit
`one`: the `PickCherryWithReference` success tail resets the index to `one`'s
tree with read-tree, recommits reusing `two`'s metadata, and hard-resets the
worktree — for every store-preserving behavior of the raw cherry-pick. -/
theorem c1_swap_tree_equivalence (cp : CPOracle) (edit : Bool)
    (baselines : List String) (s sf : Repo)
    (hcp : ∀ ref t sha c, lookupCommit t sha = some c →
      lookupCommit ((cp ref t).2) sha = some c)
    (hok : swap cp edit baselines s = (.ok (), sf)) :
    ∃ one cf, headCommit s = some one ∧ headCommit sf = some cf ∧
      cf.tree = one.tree := by
  unfold swap at hok
  split at hok
  · simp_all
  · rename_i x1 one hone
    split at hok
    · simp_all
    · rename_i x2 two three hpar
      split at hok
      · simp_all
      · rename_i hbase
        obtain ⟨r, s1, hbody, hns, htail⟩ := runScope_ok_inv _ _ _ _ _ hok
        obtain ⟨hr, hsf⟩ := swapCheckpointTail_ok_inv _ _ _ _ htail
        subst hr
        subst hsf
        have hlook1 : lookupCommit s one.sha = some one :=
          commitOf_lookup s "HEAD" one hone
        obtain ⟨hup, hroot⟩ := swapParents_ok_inv s one two three hpar
        have hlook2 : lookupCommit s two.sha = some two :=
          uniqueParent_lookup s one two hup
        have hHs : headCommit s = some one := commitOf_head_headCommit s one hone
        cases three with
        | some th =>
          unfold checkoutBaseline at hbody
          simp only [Option.map] at hbody
          split at hbody
          · simp_all
          · rename_i x3 sB hco
            obtain ⟨cB, hlB, hsB⟩ := checkoutSha_ok_inv s sB th.sha hco
            subst hsB
            obtain ⟨cf, hcf, htree, horph⟩ :=
              pcwr_scope_ok cp edit one two
                { s with
                  headRef := none, headSha := th.sha,
                  indexTree := cB.tree, worktree := cB.tree }
                sf hcp hlook1 hlook2 hbody
            exact ⟨one, cf, hHs, hcf, htree⟩
        | none =>
          unfold checkoutBaseline at hbody
          simp only [Option.map] at hbody
          unfold tempBranchScope at hbody
          obtain ⟨r0, s5, hbody0, hns0, htail0⟩ := runScope_ok_inv _ _ _ _ _ hbody
          obtain ⟨hr0, s6, hdet, hsf6⟩ := dtbTail_ok_inv _ _ _ _ _ htail0
          subst hr0
          obtain ⟨cf, hcf, htree, horph⟩ :=
            pcwr_scope_ok cp edit one two
              (deleteIndexAndFiles (checkoutOrphan s (freshTempName s)))
              s5 hcp hlook1 hlook2 hbody0
          simp only [horph] at hdet
          obtain ⟨hhc, hhr⟩ := detach_ok_headCommit s5 s6 (by simpa using hdet)
          refine ⟨one, cf, hHs, ?_, htree⟩
          rw [hsf6]
          by_cases hbe : branchExists s6 (freshTempName s) = true
          · rw [if_pos hbe, headCommit_deleteBranch s6 _ hhr, hhc]
            exact hcf
          · rw [if_neg (by simpa using hbe), hhc]
            exact hcf

/-- Closed witness for `c1_swap_tree_equivalence`: swapping the top two
commits of `repo0` under a conflict-free cherry-pick oracle preserves HEAD's
tree. -/
theorem c1_witness :
    ∃ one cf, headCommit repo0 = some one ∧
      headCommit (swap cpOk false [] repo0).2 = some cf ∧ cf.tree = one.tree :=
  c1_swap_tree_equivalence cpOk false [] repo0 (swap cpOk false [] repo0).2
    (fun ref t sha c h => h) (by rfl)

end Gitq
